import Mathlib

/-!
Verification development for the browser-agent control loop of the
Rust-Agentic-RPA repository (`src/bin/agent/`).

The Rust sources are shallowly embedded as Lean definitions:

* `ChatMessage`, `Step`, `PageState`, `Extraction` mirror `types.rs`.
* `BrainState` with `startTask`, `observeBrain`, `saveMemory`, `loadMemory`,
  `decideAppend` / `llmStepResult` mirror `brain.rs` (`Brain::start_task`,
  `Brain::observe`, `Brain::save_memory`, `Brain::load_memory`,
  `Brain::decide_next_step`).  The HTTP transport and the serde JSON codec
  are the IO boundary: the LLM round trip is an oracle value of type
  `LlmResult`, the JSON decode of a `Step` is an abstract function
  `p : String → Except String Step`, and the persisted `memory.json` file is
  the `disk` field holding the decoded record list.
* `runTaskGo` / `runTaskLoop` / `runTask` mirror `run_task` and
  `execute_step_on_tab` from `main.rs`; the browser (`headless_chrome`) is an
  oracle `Nat → IterOracle` giving, for every loop iteration, the outcome of
  the blocking browser calls of that iteration.
* `captureTruncate` mirrors the pure truncation logic of
  `capture_dom_snapshot` in `dom.rs`, at the byte level (`utf8Len`,
  `byteSliceTo`); a `none` result models a Rust slice panic.
* `walkNode` / `walkList` / `processChild` mirror the traversal script
  `SNAPSHOT_JS` of `dom.rs`; page state read by the script (computed styles,
  element properties) is carried on the `DomNode` tree, and the
  `data-eid` attributes stamped by `setAttribute` together with the ids of
  the pushed interactive lines are recorded in the `stamped` / `eids`
  fields of the walk state.
-/

/-! ## Data model (`types.rs`) -/

/-- `Step` from `types.rs`: the closed action union, serde-tagged by
`action`. -/
inductive Step where
  | Navigate (url : String)
  | WaitFor (selector : String) (timeout_ms : Nat)
  | TypeInto (selector : String) (text : String)
  | Click (selector : String)
  | PressKey (key : String)
  | Extract (selector : String) (label : String)
  | Screenshot
  | Done (summary : String)
  | NewTab
deriving DecidableEq, Repr

/-- Whether a step is the terminal `Done` action. -/
def Step.isDone : Step → Bool
  | .Done _ => true
  | _ => false

/-- `Extraction` from `types.rs`. -/
structure Extraction where
  label : String
  content : String
deriving DecidableEq, Repr

/-- `PageState` from `types.rs`. -/
structure PageState where
  url : String
  title : String
  dom_snapshot : String
  extracted : List Extraction
  error : Option String
deriving DecidableEq, Repr

/-- `ChatMessage` from `types.rs`. -/
structure ChatMessage where
  role : String
  content : String
deriving DecidableEq, Repr

/-- `MAX_STEPS_PER_TASK` from `types.rs`. -/
def MAX_STEPS_PER_TASK : Nat := 25

/-- `DOM_SNAPSHOT_MAX_CHARS` from `types.rs`. -/
def DOM_SNAPSHOT_MAX_CHARS : Nat := 4000

/-- `AgentEvent` from `face.rs`. -/
inductive AgentEvent where
  | Step (number : Nat) (description : String)
  | StepError (message : String)
  | TaskComplete (summary : String)
  | TaskError (message : String)
  | Thinking
  | Ready
deriving DecidableEq, Repr

/-! ## Markdown-fence stripping (`Brain::decide_next_step`, `brain.rs`)

`decide_next_step` cleans the assistant reply with
`content.trim().trim_start_matches("[3 backticks]json")
.trim_start_matches("[3 backticks]").trim_end_matches("[3 backticks]")
.trim()` before handing it to `serde_json::from_str`.  Rust
`trim_start_matches` / `trim_end_matches` remove *all* leading / trailing
occurrences of the pattern; they are modelled on `List Char` by the
fuelled `stripGo` (the fuel `s.length` dominates the number of removals).
Rust `str::trim` removes Unicode whitespace at both ends; it is modelled
with `Char.isWhitespace`. -/

/-- The backtick character. -/
def tick : Char := Char.ofNat 96

/-- The three-backtick fence marker. -/
def tick3 : List Char := [tick, tick, tick]

/-- The fence marker followed by the `json` language tag. -/
def tickJson : List Char := tick3 ++ ['j', 's', 'o', 'n']

/-- Whitespace test used by the `trim` model. -/
def isWs (c : Char) : Bool := c.isWhitespace

/-- Model of Rust `str::trim`. -/
def trimList (s : List Char) : List Char :=
  ((s.dropWhile isWs).reverse.dropWhile isWs).reverse

/-- Fuelled worker for repeated removal of the pattern `pat` at the front. -/
def stripGo (pat : List Char) : Nat → List Char → List Char
  | 0, s => s
  | fuel + 1, s =>
      if !pat.isEmpty && pat.isPrefixOf s then
        stripGo pat fuel (s.drop pat.length)
      else s

/-- Model of Rust `str::trim_start_matches pat`: every leading occurrence of
`pat` removed. -/
def stripStartAll (pat s : List Char) : List Char :=
  stripGo pat s.length s

/-- Model of Rust `str::trim_end_matches pat`: every trailing occurrence of
`pat` removed, implemented on the reversed list. -/
def stripEndAll (pat s : List Char) : List Char :=
  (stripStartAll pat.reverse s.reverse).reverse

/-- The `cleaned` string of `Brain::decide_next_step`, on character lists. -/
def cleanedReply (content : List Char) : List Char :=
  trimList (stripEndAll tick3 (stripStartAll tick3 (stripStartAll tickJson (trimList content))))

/-- The `cleaned` string of `Brain::decide_next_step`. -/
def cleanedReplyStr (content : String) : String :=
  (cleanedReply content.data).asString

/-! ## The Brain (`brain.rs`) -/

/-- Opening brace character (start of a serialized JSON object). -/
def jsonOpen : Char := Char.ofNat 123

/-- Closing brace character (end of a serialized JSON object). -/
def jsonClose : Char := Char.ofNat 125

/-- `SYSTEM_PROMPT` from `brain.rs` (braces and apostrophes written with
hexadecimal escapes). -/
def systemPromptText : String :=
  "You are a browser automation agent. You control a real Chrome browser by issuing ONE step at a time as JSON.\n\nAvailable actions:\n- \x7b\"action\":\"Navigate\",\"url\":\"https://...\"\x7d\n- \x7b\"action\":\"WaitFor\",\"selector\":\"[data-eid=\\\"[e0]\\\"]\",\"timeout_ms\":5000\x7d\n- \x7b\"action\":\"TypeInto\",\"selector\":\"[data-eid=\\\"[e0]\\\"]\",\"text\":\"search query\"\x7d\n- \x7b\"action\":\"Click\",\"selector\":\"[data-eid=\\\"[e0]\\\"]\"\x7d\n- \x7b\"action\":\"PressKey\",\"key\":\"Enter\"\x7d\n- \x7b\"action\":\"Extract\",\"selector\":\"body\",\"label\":\"main_content\"\x7d\n- \x7b\"action\":\"Screenshot\"\x7d\n- \x7b\"action\":\"NewTab\"\x7d\n- \x7b\"action\":\"Done\",\"summary\":\"Completed: found the answer is 42\"\x7d\n\nRules:\n1. Return ONLY a single JSON object per response. No markdown, no explanation.\n2. Use the [eN] element IDs from the DOM snapshot to target elements. Use selector format: [data-eid=\"[eN]\"]\n3. After Navigate, the system will show you the new page DOM. Decide your next step based on what you see.\n4. Use TypeInto to fill inputs, then PressKey with \"Enter\" to submit. Or Click the submit button.\n5. When the user\x27s task is accomplished, use Done with a summary of what was achieved.\n6. If you encounter an error, try an alternative approach. If stuck after 3 attempts, use Done to explain.\n7. Keep steps minimal. Do not over-navigate."

/-- State of `Brain`: the in-memory conversation plus the decoded content of
the persisted `memory.json` file (`none` models a missing or unreadable
file). -/
structure BrainState where
  conversation : List ChatMessage
  disk : Option (List ChatMessage)
deriving DecidableEq, Repr

/-- `Brain::save_memory`: rewrite the file with the full conversation. -/
def saveMemory (st : BrainState) : BrainState :=
  { st with disk := some st.conversation }

/-- `Brain::load_memory`: replace the conversation with the on-disk record
list when the file decodes, is non-empty and its first record has role
`system`; otherwise keep the current conversation. -/
def loadMemory (file : Option (List ChatMessage)) (st : BrainState) : BrainState :=
  match file with
  | some (m :: rest) => if m.role = "system" then { st with conversation := m :: rest } else st
  | _ => st

/-- `Brain::new`: a one-turn conversation holding the system instruction,
then `load_memory` on the persisted file. -/
def brainNew (file : Option (List ChatMessage)) : BrainState :=
  loadMemory file { conversation := [⟨"system", systemPromptText⟩], disk := file }

/-- The user turn pushed by `Brain::start_task`. -/
def startTurn (command : String) : ChatMessage :=
  ⟨"user", "Task: " ++ command ++ "\n\nThe browser is on the current page. What is your next step?"⟩

/-- `Brain::start_task`: append the task turn and persist. -/
def startTask (command : String) (st : BrainState) : BrainState :=
  saveMemory { st with conversation := st.conversation ++ [startTurn command] }

/-- The observation string built by `Brain::observe`. -/
def observationText (ps : PageState) : String :=
  let base := "Page URL: " ++ ps.url ++ "\nTitle: " ++ ps.title ++ "\n\nDOM:\n" ++ ps.dom_snapshot
  let withErr :=
    match ps.error with
    | some e => base ++ ("\n\nERROR from last step: " ++ e)
    | none => base
  ps.extracted.foldl (fun acc ext => acc ++ ("\n\nExtracted [" ++ ext.label ++ "]: " ++ ext.content)) withErr

/-- The user turn pushed by `Brain::observe`. -/
def observationTurn (ps : PageState) : ChatMessage :=
  ⟨"user", observationText ps⟩

/-- `Brain::observe`: append the observation turn and persist. -/
def observeBrain (ps : PageState) (st : BrainState) : BrainState :=
  saveMemory { st with conversation := st.conversation ++ [observationTurn ps] }

/-- Outcome of the LLM round trip inside `Brain::decide_next_step`, as seen
at the IO boundary.  `failure` covers a transport error, a non-success HTTP
status and a missing `choices[0].message.content` field (all of which
return before the conversation is touched, carrying the formatted error
message); `reply` carries the assistant content string. -/
inductive LlmResult where
  | failure (message : String)
  | reply (content : String)
deriving DecidableEq, Repr

/-- The error message built when `serde_json::from_str` rejects the cleaned
reply (`anyhow!("Failed to parse LLM response: {e}")`). -/
def parseFailMsg (e : String) : String :=
  "Failed to parse LLM response: " ++ e

/-- The JSON decode of a `Step` (`serde_json::from_str`), kept abstract:
`.ok` is a successful decode, `.error` carries the serde error text. -/
abbrev ParseFn := String → Except String Step

/-- The `Result<Step>` value returned by `Brain::decide_next_step`: a
failure before the reply is obtained is returned as is; otherwise the
fence-cleaned reply is JSON-decoded, wrapping a decode error in the
`Failed to parse` message. -/
def llmStepResult (p : ParseFn) : LlmResult → Except String Step
  | .failure m => .error m
  | .reply c =>
      match p (cleanedReplyStr c) with
      | .ok s => .ok s
      | .error e => .error (parseFailMsg e)

/-- The conversation mutation performed by `Brain::decide_next_step`: the
assistant reply is appended verbatim and persisted *before* parsing is
attempted, so it is retained even when the subsequent decode fails; the
failure paths return before the append. -/
def decideAppend : LlmResult → BrainState → BrainState
  | .failure _, st => st
  | .reply c, st => saveMemory { st with conversation := st.conversation ++ [⟨"assistant", c⟩] }

/-- `Brain::decide_next_step`, given the oracle outcome of the HTTP round
trip: the mutated brain state paired with the returned `Result<Step>`. -/
def decideNextStep (p : ParseFn) (r : LlmResult) (st : BrainState) :
    BrainState × Except String Step :=
  (decideAppend r st, llmStepResult p r)

/-! ## The task loop (`main.rs`, `run_task` and `execute_step_on_tab`)

One loop iteration performs blocking browser work whose outcome is
environment-determined: the result of `execute_step_on_tab` (success or a
formatted error string), the value produced by the `Extract` script, and the
results of `get_current_url` / `get_page_title` / `capture_dom_snapshot`
(`none` models the `Err` branch consumed by `unwrap_or_else`).  The LLM
round trip of the iteration is the `llm` field.  `run_task` consumes the
oracle at index `step_count`, since `step_count` equals the number of
completed iterations when an iteration begins. -/

/-- Per-iteration outcome of the external world (LLM service and browser). -/
structure IterOracle where
  llm : LlmResult
  execErr : Option String
  extractValue : String
  urlRes : Option String
  titleRes : Option String
  domCapture : Option String
deriving Repr

/-- `execute_step_on_tab`: the error string (if any) and the extractions
pushed.  `Screenshot`, `Done` and `NewTab` perform no browser call and can
never fail; `Extract` pushes one extraction truncated to 2000 characters
when its script evaluation succeeds; every other step only has its
success-or-error outcome. -/
def iterExec (o : IterOracle) : Step → Option String × List Extraction
  | .Extract _ label =>
      match o.execErr with
      | some e => (some e, [])
      | none => (none, [⟨label, o.extractValue.take 2000⟩])
  | .Screenshot => (none, [])
  | .Done _ => (none, [])
  | .NewTab => (none, [])
  | _ => (o.execErr, [])

/-- The `PageState` assembled after executing one step in `run_task`,
with the `unwrap_or_else` defaults of `main.rs`. -/
def iterPageState (o : IterOracle) (step : Step) : PageState :=
  { url := o.urlRes.getD "unknown"
    title := o.titleRes.getD "untitled"
    dom_snapshot := o.domCapture.getD ""
    extracted := (iterExec o step).2
    error := (iterExec o step).1 }

/-- Rust `Debug`-style escaping used by `format!("{:?}", step)` for the
common escape classes (quote, backslash, newline, tab, carriage return). -/
def escapeDebug (s : String) : String :=
  ⟨s.data.foldr (fun c acc =>
    if c = '"' then '\\' :: '"' :: acc
    else if c = '\\' then '\\' :: '\\' :: acc
    else if c = '\n' then '\\' :: 'n' :: acc
    else if c = '\t' then '\\' :: 't' :: acc
    else if c = '\r' then '\\' :: 'r' :: acc
    else c :: acc) []⟩

/-- A quoted, escaped string as printed by Rust `Debug`. -/
def dbgStr (s : String) : String := "\"" ++ escapeDebug s ++ "\""

/-- One `field: value` rendering inside a `Debug` struct body. -/
def dbgOpen : String := ⟨[jsonOpen]⟩

/-- Closing brace of a `Debug` struct body. -/
def dbgClose : String := ⟨[jsonClose]⟩

/-- The `description` string of the `Step` event:
`format!("{:?}", step)` with the derived `Debug` shape. -/
def stepDescription : Step → String
  | .Navigate url => "Navigate " ++ dbgOpen ++ " url: " ++ dbgStr url ++ " " ++ dbgClose
  | .WaitFor sel t =>
      "WaitFor " ++ dbgOpen ++ " selector: " ++ dbgStr sel ++ ", timeout_ms: " ++ Nat.repr t ++ " " ++ dbgClose
  | .TypeInto sel text =>
      "TypeInto " ++ dbgOpen ++ " selector: " ++ dbgStr sel ++ ", text: " ++ dbgStr text ++ " " ++ dbgClose
  | .Click sel => "Click " ++ dbgOpen ++ " selector: " ++ dbgStr sel ++ " " ++ dbgClose
  | .PressKey k => "PressKey " ++ dbgOpen ++ " key: " ++ dbgStr k ++ " " ++ dbgClose
  | .Extract sel label =>
      "Extract " ++ dbgOpen ++ " selector: " ++ dbgStr sel ++ ", label: " ++ dbgStr label ++ " " ++ dbgClose
  | .Screenshot => "Screenshot"
  | .Done s => "Done " ++ dbgOpen ++ " summary: " ++ dbgStr s ++ " " ++ dbgClose
  | .NewTab => "NewTab"

/-- The `TaskError` message emitted when the step budget is exhausted:
`format!("Reached maximum step limit ({})", MAX_STEPS_PER_TASK)`. -/
def stepLimitMessage : String :=
  "Reached maximum step limit (" ++ Nat.repr MAX_STEPS_PER_TASK ++ ")"

/-- The `StepError` event emitted after executing a step, when the
execution failed. -/
def stepErrEvents : Option String → List AgentEvent
  | some m => [.StepError m]
  | none => []

/-- The `loop` body of `run_task`, fuelled.  The fuel is
`MAX_STEPS_PER_TASK - step_count`, so fuel `0` is exactly the
`step_count >= MAX_STEPS_PER_TASK` break (see `runTaskLoop_exhausted` /
`runTaskLoop_active`): the loop emits one `TaskError` naming the limit and
stops without touching the brain.  Otherwise: `Thinking` is emitted, the
decide round runs (appending the assistant reply when one was obtained); a
decide failure emits `TaskError` and breaks; a parsed `Done` emits
`TaskComplete` and breaks before any `Step` event or browser work; any
other step emits `Step` (the `NewTab` session mutation and its warning are
eventless), executes on the browser, emits `StepError` when the execution
failed, appends the observation and continues. -/
def runTaskGo (p : ParseFn) (o : Nat → IterOracle) :
    Nat → Nat → BrainState → List AgentEvent × BrainState
  | 0, _, st => ([.TaskError stepLimitMessage], st)
  | fuel + 1, n, st =>
      let st₁ := decideAppend (o n).llm st
      match llmStepResult p (o n).llm with
      | .error e => ([.Thinking, .TaskError e], st₁)
      | .ok step =>
          match step with
          | .Done summary => ([.Thinking, .TaskComplete summary], st₁)
          | _ =>
              let ps := iterPageState (o n) step
              let st₂ := observeBrain ps st₁
              let rest := runTaskGo p o fuel (n + 1) st₂
              (.Thinking :: .Step (n + 1) (stepDescription step) :: stepErrEvents ps.error ++ rest.1,
               rest.2)

/-- The `loop` of `run_task`, entered with the current `step_count`. -/
def runTaskLoop (p : ParseFn) (o : Nat → IterOracle) (n : Nat) (st : BrainState) :
    List AgentEvent × BrainState :=
  runTaskGo p o (MAX_STEPS_PER_TASK - n) n st

/-- `run_task`: start the task (the tab-opening call is eventless), run the
loop from `step_count = 0`, then emit `Ready`. -/
def runTask (p : ParseFn) (o : Nat → IterOracle) (command : String) (st : BrainState) :
    List AgentEvent × BrainState :=
  let st₁ := startTask command st
  let r := runTaskLoop p o 0 st₁
  (r.1 ++ [.Ready], r.2)

/-- Recognizer for `Step` events. -/
def isStepEv : AgentEvent → Bool
  | .Step _ _ => true
  | _ => false

/-- Recognizer for `TaskError` events. -/
def isTaskErrorEv : AgentEvent → Bool
  | .TaskError _ => true
  | _ => false

/-- Recognizer for `TaskComplete` events. -/
def isTaskCompleteEv : AgentEvent → Bool
  | .TaskComplete _ => true
  | _ => false

/-- Recognizer for `Thinking` events. -/
def isThinkingEv : AgentEvent → Bool
  | .Thinking => true
  | _ => false

/-! ## DOM snapshot truncation (`capture_dom_snapshot`, `dom.rs`)

`capture_dom_snapshot` compares `raw.len()` (the *byte* length) with
`DOM_SNAPSHOT_MAX_CHARS` and, in the long case, slices
`&raw[..DOM_SNAPSHOT_MAX_CHARS]` — a byte slice that panics when the cut
does not fall on a UTF-8 character boundary.  The model works on the
character list: `utf8Len` is the byte length and `byteSliceTo` returns the
prefix worth exactly `n` bytes, or `none` (the panic) when `n` is not a
boundary. -/

/-- Rust `str::len`: the UTF-8 byte length. -/
def utf8Len (s : List Char) : Nat :=
  (s.map Char.utf8Size).sum

/-- The byte slice `&s[..n]`: `none` models the boundary panic. -/
def byteSliceTo : List Char → Nat → Option (List Char)
  | _, 0 => some []
  | [], _ + 1 => none
  | c :: cs, n + 1 =>
      if c.utf8Size ≤ n + 1 then (byteSliceTo cs (n + 1 - c.utf8Size)).map (c :: ·)
      else none

/-- The truncation marker appended in the long case:
`format!("\n... [truncated, {} total chars]", raw.len())`. -/
def truncMarker (n : Nat) : List Char :=
  ("\n... [truncated, " ++ Nat.repr n ++ " total chars]").data

/-- The pure core of `capture_dom_snapshot`, after the script evaluation
produced the raw text: `none` models the byte-slice panic. -/
def captureTruncate (raw : List Char) : Option (List Char) :=
  if DOM_SNAPSHOT_MAX_CHARS < utf8Len raw then
    (byteSliceTo raw DOM_SNAPSHOT_MAX_CHARS).map (fun cut => cut ++ truncMarker (utf8Len raw))
  else some raw

/-! ## The perception encoder traversal (`SNAPSHOT_JS`, `dom.rs`)

The injected script walks the element tree from `document.body`.  A
`DomNode` carries the element state the script reads: `tagName` (uppercase,
as the DOM exposes it), the outcome of `isVisible` (a function of layout
and computed style, so environment-determined per element), `textContent`,
the `type` / `placeholder` / `name` / `value` properties and the option
texts of a `select`.  The walk state mirrors the script variables `id`,
`seen` and `lines`; `stamped` records the `data-eid` values written by
`setAttribute` in traversal order, and `eids` records the id carried by
each pushed interactive line, in push order. -/

/-- An element of the page tree, with the properties `SNAPSHOT_JS` reads. -/
inductive DomNode where
  | mk (tag : String) (visible : Bool) (textContent : String)
      (typeAttr : String) (placeholder : String) (nameAttr : String) (value : String)
      (options : List String) (children : List DomNode)

/-- The `tagName` property. -/
def DomNode.tag : DomNode → String
  | .mk t _ _ _ _ _ _ _ _ => t

/-- The outcome of the script's `isVisible` test on this element. -/
def DomNode.visible : DomNode → Bool
  | .mk _ v _ _ _ _ _ _ _ => v

/-- The `textContent` property. -/
def DomNode.textContent : DomNode → String
  | .mk _ _ t _ _ _ _ _ _ => t

/-- The `type` property (empty models a falsy value). -/
def DomNode.typeAttr : DomNode → String
  | .mk _ _ _ t _ _ _ _ _ => t

/-- The `placeholder` property (empty models a falsy value). -/
def DomNode.placeholder : DomNode → String
  | .mk _ _ _ _ p _ _ _ _ => p

/-- The `name` property (empty models a falsy value). -/
def DomNode.nameAttr : DomNode → String
  | .mk _ _ _ _ _ n _ _ _ => n

/-- The `value` property (empty models a falsy value). -/
def DomNode.value : DomNode → String
  | .mk _ _ _ _ _ _ v _ _ => v

/-- The texts of the `options` collection of a `select`. -/
def DomNode.options : DomNode → List String
  | .mk _ _ _ _ _ _ _ o _ => o

/-- The `children` collection. -/
def DomNode.children : DomNode → List DomNode
  | .mk _ _ _ _ _ _ _ _ c => c

/-- The `SKIP` set of the script. -/
def skipTags : List String := ["SCRIPT", "STYLE", "NOSCRIPT", "SVG", "LINK"]

/-- The interactive tag list of the script (lowercase). -/
def interactiveTags : List String := ["a", "button", "input", "textarea", "select"]

/-- The walk state: the script variables `id`, `seen`, `lines`, plus the
`setAttribute` log `stamped` and the ids of the pushed interactive lines
`eids`. -/
structure SnapState where
  nextId : Nat
  seen : List String
  lines : List String
  stamped : List Nat
  eids : List Nat
deriving Repr

/-- The `eid` string `'[e' + id + ']'`. -/
def eidString (id : Nat) : String := "[e" ++ Nat.repr id ++ "]"

/-- The one-line summary `desc` built for an interactive element. -/
def describeEl (tagLower : String) (c : DomNode) (eid : String) : String :=
  if tagLower = "a" then
    eid ++ " link \"" ++ (c.textContent.trim.take 60) ++ "\""
  else if tagLower = "input" ∨ tagLower = "textarea" then
    let base := eid ++ " " ++ tagLower ++ " type=" ++
      (if c.typeAttr = "" then "text" else c.typeAttr) ++
      " placeholder=\"" ++ c.placeholder ++ "\""
    let withName := if c.nameAttr ≠ "" then base ++ (" name=" ++ c.nameAttr) else base
    if c.value ≠ "" then withName ++ (" value=\"" ++ c.value.take 30 ++ "\"") else withName
  else if tagLower = "button" then
    eid ++ " button \"" ++ (c.textContent.trim.take 60) ++ "\""
  else if tagLower = "select" then
    eid ++ " select [" ++ String.intercalate "|" (c.options.map (fun t => t.trim.take 20)) ++ "]"
  else ""

/-- The per-child body of the script's `for` loop (after the skip and
visibility `continue`s, before the recursive call): stamp and describe an
interactive element, deduplicating the pushed line against `seen`; or push
the trimmed leaf text when it passes the length window, deduplicated by the
truncated text. -/
def processChild (c : DomNode) (st : SnapState) : SnapState :=
  let tagLower := c.tag.toLower
  if interactiveTags.contains tagLower then
    let eid := eidString st.nextId
    let desc := describeEl tagLower c eid
    let st' := { st with nextId := st.nextId + 1, stamped := st.stamped ++ [st.nextId] }
    if desc ≠ "" ∧ desc ∉ st.seen then
      { st' with
        seen := st.seen ++ [desc]
        lines := st.lines ++ [desc]
        eids := st.eids ++ [st.nextId] }
    else st'
  else
    let text := c.textContent.trim
    if text ≠ "" ∧ 2 < text.length ∧ text.length < 200 ∧ c.children.length = 0 then
      let t := text.take 100
      if t ∉ st.seen then
        { st with seen := st.seen ++ [t], lines := st.lines ++ ["  \"" ++ t ++ "\""] }
      else st
    else st

mutual

/-- `walk(node, depth)`: stop beyond depth 15, otherwise fold the loop body
over the children. -/
def walkNode (depth : Nat) (c : DomNode) (st : SnapState) : SnapState :=
  if depth > 15 then st else walkList depth c.children st
termination_by sizeOf c
decreasing_by cases c; simp [DomNode.children]

/-- The `for (const child of node.children)` loop: a skipped or invisible
child is neither summarized nor entered; otherwise the child is processed
and then entered at `depth + 1`. -/
def walkList (depth : Nat) (cs : List DomNode) (st : SnapState) : SnapState :=
  match cs with
  | [] => st
  | c :: rest =>
      let st₁ :=
        if skipTags.contains c.tag ∨ c.visible = false then st
        else walkNode (depth + 1) c (processChild c st)
      walkList depth rest st₁
termination_by sizeOf cs
decreasing_by all_goals (simp; try omega)

end

/-- One snapshot call: `walk(document.body, 0)` over the fresh script state
(`id = 0`, empty `seen` and `lines`).  The counter restart on every call is
this fixed initial state. -/
def snapshotRun (body : DomNode) : SnapState :=
  walkNode 0 body ⟨0, [], [], [], []⟩

/-- The string the script returns: `lines.join('\n')`. -/
def snapshotText (body : DomNode) : String :=
  String.intercalate "\n" (snapshotRun body).lines

/-- Specification relation between walk states: the walk advanced the
counter by some `k`, stamped exactly the ids `nextId, …, nextId + k - 1`
in traversal order, and pushed interactive lines carrying a subsequence
of those ids, in order. -/
def snapExtends (st st' : SnapState) : Prop :=
  ∃ k es, st'.nextId = st.nextId + k
    ∧ st'.stamped = st.stamped ++ List.range' st.nextId k
    ∧ st'.eids = st.eids ++ es
    ∧ es.Sublist (List.range' st.nextId k)

/-! ## Loop unfolding lemmas -/

/-- Exhausted budget: the `step_count >= MAX_STEPS_PER_TASK` break. -/
theorem runTaskLoop_exhausted (p : ParseFn) (o : Nat → IterOracle) (n : Nat) (st : BrainState)
    (h : MAX_STEPS_PER_TASK ≤ n) :
    runTaskLoop p o n st = ([.TaskError stepLimitMessage], st) := by
  unfold runTaskLoop
  rw [Nat.sub_eq_zero_of_le h]
  rfl

/-- With budget remaining, the loop runs one fuelled iteration. -/
theorem runTaskLoop_succ (p : ParseFn) (o : Nat → IterOracle) (n : Nat) (st : BrainState)
    (h : n < MAX_STEPS_PER_TASK) :
    runTaskLoop p o n st = runTaskGo p o (MAX_STEPS_PER_TASK - (n + 1) + 1) n st := by
  unfold runTaskLoop
  congr 1
  omega

/-- A failed decide round: one `Thinking`, one `TaskError`, loop over. -/
theorem runTaskLoop_decide_error (p : ParseFn) (o : Nat → IterOracle) (n : Nat) (st : BrainState)
    (e : String) (h : n < MAX_STEPS_PER_TASK) (he : llmStepResult p (o n).llm = .error e) :
    runTaskLoop p o n st = ([.Thinking, .TaskError e], decideAppend (o n).llm st) := by
  rw [runTaskLoop_succ p o n st h]
  simp only [runTaskGo, he]

/-- A parsed `Done`: one `Thinking`, one `TaskComplete`, loop over. -/
theorem runTaskLoop_done (p : ParseFn) (o : Nat → IterOracle) (n : Nat) (st : BrainState)
    (summary : String) (h : n < MAX_STEPS_PER_TASK)
    (hs : llmStepResult p (o n).llm = .ok (.Done summary)) :
    runTaskLoop p o n st = ([.Thinking, .TaskComplete summary], decideAppend (o n).llm st) := by
  rw [runTaskLoop_succ p o n st h]
  simp only [runTaskGo, hs]

/-- A parsed non-terminal step: `Thinking`, `Step`, the execution error
event when there is one, then the next iteration on the observed state. -/
theorem runTaskLoop_cont (p : ParseFn) (o : Nat → IterOracle) (n : Nat) (st : BrainState)
    (step : Step) (h : n < MAX_STEPS_PER_TASK) (hs : llmStepResult p (o n).llm = .ok step)
    (hnd : step.isDone = false) :
    runTaskLoop p o n st =
      (.Thinking :: .Step (n + 1) (stepDescription step) ::
          stepErrEvents (iterPageState (o n) step).error ++
          (runTaskLoop p o (n + 1)
            (observeBrain (iterPageState (o n) step) (decideAppend (o n).llm st))).1,
       (runTaskLoop p o (n + 1)
            (observeBrain (iterPageState (o n) step) (decideAppend (o n).llm st))).2) := by
  rw [runTaskLoop_succ p o n st h]
  simp only [runTaskGo, hs]
  cases step <;> simp_all [Step.isDone, runTaskLoop]

/-- Every iteration entered with budget remaining opens with `Thinking`. -/
theorem runTaskLoop_head_thinking (p : ParseFn) (o : Nat → IterOracle) (n : Nat) (st : BrainState)
    (h : n < MAX_STEPS_PER_TASK) :
    ((runTaskLoop p o n st).1).head? = some .Thinking := by
  rw [runTaskLoop_succ p o n st h]
  cases hres : llmStepResult p (o n).llm with
  | error e => simp only [runTaskGo, hres]; rfl
  | ok step => cases step <;> simp only [runTaskGo, hres] <;> rfl

/-! ## Claims about the conversation store (C6, C7) -/

/-- The conversation of any `decideAppend` result extends the old one. -/
theorem decideAppend_conv_extends (r : LlmResult) (st : BrainState) :
    st.conversation <+: (decideAppend r st).conversation := by
  cases r with
  | failure m => exact List.prefix_refl _
  | reply c => exact ⟨[⟨"assistant", c⟩], rfl⟩

/-- The conversation of any `observeBrain` result extends the old one. -/
theorem observeBrain_conv_extends (ps : PageState) (st : BrainState) :
    st.conversation <+: (observeBrain ps st).conversation :=
  ⟨[observationTurn ps], rfl⟩

/-- The conversation after any number of loop iterations extends the one
the loop was entered with. -/
theorem runTaskGo_conv_extends (p : ParseFn) (o : Nat → IterOracle) :
    ∀ fuel n st, st.conversation <+: (runTaskGo p o fuel n st).2.conversation := by
  intro fuel
  induction fuel with
  | zero => intro n st; exact List.prefix_refl _
  | succ f ih =>
      intro n st
      cases hres : llmStepResult p (o n).llm with
      | error e =>
          simp only [runTaskGo, hres]
          exact decideAppend_conv_extends _ st
      | ok step =>
          cases step
          case Done s =>
            simp only [runTaskGo, hres]
            exact decideAppend_conv_extends _ st
          all_goals
            simp only [runTaskGo, hres]
            exact (decideAppend_conv_extends _ st).trans
              ((observeBrain_conv_extends _ _).trans (ih _ _))

/-- C7: the conversation store is append-only and persisted after every
mutation.  `start_task` and `observe` push exactly one new turn and then
write the full conversation to disk; `decide_next_step` pushes exactly the
assistant turn and persists when a reply was obtained, and leaves the brain
untouched when the round trip failed before a reply; consequently the
history present when `run_task` begins — including the initial system turn
and the turns of prior tasks — is a prefix of the history when it ends. -/
theorem conversation_append_only :
    (∀ cmd st, (startTask cmd st).conversation = st.conversation ++ [startTurn cmd]
      ∧ (startTask cmd st).disk = some ((startTask cmd st).conversation))
    ∧ (∀ ps st, (observeBrain ps st).conversation = st.conversation ++ [observationTurn ps]
      ∧ (observeBrain ps st).disk = some ((observeBrain ps st).conversation))
    ∧ (∀ (p : ParseFn) (c : String) st,
        (decideNextStep p (.reply c) st).1.conversation = st.conversation ++ [⟨"assistant", c⟩]
      ∧ (decideNextStep p (.reply c) st).1.disk
          = some ((decideNextStep p (.reply c) st).1.conversation))
    ∧ (∀ (p : ParseFn) (m : String) st, (decideNextStep p (.failure m) st).1 = st)
    ∧ (∀ (p : ParseFn) (o : Nat → IterOracle) cmd st,
        st.conversation <+: (runTask p o cmd st).2.conversation) := by
  refine ⟨fun cmd st => ⟨rfl, rfl⟩, fun ps st => ⟨rfl, rfl⟩,
    fun p c st => ⟨rfl, rfl⟩, fun p m st => rfl, fun p o cmd st => ?_⟩
  exact ( List.prefix_append _ _).trans (runTaskGo_conv_extends p o _ 0 (startTask cmd st))

/-- C6: save/load round trip.  Reloading a persisted conversation whose
first record has role `system` restores exactly the saved ordered turn
sequence, into any brain; and at process start (`Brain::new`) such a file
replaces the freshly initialized one-turn conversation. -/
theorem memory_roundtrip (st st₂ : BrainState) (m : ChatMessage) (rest : List ChatMessage)
    (hconv : st.conversation = m :: rest) (hrole : m.role = "system") :
    (loadMemory (saveMemory st).disk st₂).conversation = st.conversation
    ∧ (brainNew (some (m :: rest))).conversation = m :: rest := by
  constructor
  · simp [saveMemory, loadMemory, hconv, hrole]
  · simp [brainNew, loadMemory, hrole]

/-- C6 witness: the round trip at a concrete one-turn system conversation. -/
theorem memory_roundtrip_witness :
    (loadMemory (saveMemory ⟨[⟨"system", "s"⟩], none⟩).disk ⟨[], none⟩).conversation
        = [(⟨"system", "s"⟩ : ChatMessage)]
    ∧ (brainNew (some [⟨"system", "s"⟩])).conversation = [(⟨"system", "s"⟩ : ChatMessage)] :=
  memory_roundtrip ⟨[⟨"system", "s"⟩], none⟩ ⟨[], none⟩ ⟨"system", "s"⟩ [] rfl rfl

/-! ## Claims about session termination and error handling (C1 - C4) -/

/-- C2: a parsed `Done` ends the session with exactly one `TaskComplete`
carrying exactly the parsed summary: the loop iteration emits
`[Thinking, TaskComplete X]` and stops — no `Step` event for the `Done`
itself, no browser execution and no observation (the only state change is
the assistant-reply append of the decide round), and no further decide
round in this session. -/
theorem done_single_task_complete (p : ParseFn) (o : Nat → IterOracle) (n : Nat)
    (st : BrainState) (X : String) (hn : n < MAX_STEPS_PER_TASK)
    (hs : llmStepResult p (o n).llm = .ok (.Done X)) :
    runTaskLoop p o n st = ([.Thinking, .TaskComplete X], decideAppend (o n).llm st)
    ∧ ((runTaskLoop p o n st).1).countP isTaskCompleteEv = 1
    ∧ ((runTaskLoop p o n st).1).countP isStepEv = 0
    ∧ ((runTaskLoop p o n st).1).countP isThinkingEv = 1 := by
  have h := runTaskLoop_done p o n st X hn hs
  refine ⟨h, ?_, ?_, ?_⟩ <;> rw [h] <;> rfl

/-- C2 witness: a concrete decide round returning `Done "X"`. -/
theorem done_single_task_complete_witness :
    runTaskLoop (fun _ => Except.ok (Step.Done "X"))
        (fun _ => ⟨.reply "d", none, "", none, none, none⟩) 0 ⟨[], none⟩
      = ([.Thinking, .TaskComplete "X"],
         decideAppend ((fun _ => (⟨.reply "d", none, "", none, none, none⟩ : IterOracle)) 0).llm
           ⟨[], none⟩) :=
  (done_single_task_complete (fun _ => Except.ok (Step.Done "X"))
    (fun _ => ⟨.reply "d", none, "", none, none, none⟩) 0 ⟨[], none⟩ "X"
    (by decide) rfl).1

/-- C4: the assistant reply is appended verbatim (and persisted) even when
the subsequent JSON decode fails; the decode failure makes
`decide_next_step` return the `Failed to parse` error, and the calling loop
iteration ends the session with exactly `[Thinking, TaskError msg]` — no
retry, no further round. -/
theorem parse_failure_appends_and_ends (p : ParseFn) (c e : String) (st : BrainState)
    (o : Nat → IterOracle) (n : Nat) (st₂ : BrainState)
    (hp : p (cleanedReplyStr c) = .error e)
    (hn : n < MAX_STEPS_PER_TASK) (ho : (o n).llm = .reply c) :
    decideNextStep p (.reply c) st
      = (⟨st.conversation ++ [⟨"assistant", c⟩], some (st.conversation ++ [⟨"assistant", c⟩])⟩,
         .error (parseFailMsg e))
    ∧ runTaskLoop p o n st₂
      = ([.Thinking, .TaskError (parseFailMsg e)],
         ⟨st₂.conversation ++ [⟨"assistant", c⟩],
          some (st₂.conversation ++ [⟨"assistant", c⟩])⟩) := by
  have hres : llmStepResult p (.reply c) = .error (parseFailMsg e) := by
    simp [llmStepResult, hp]
  constructor
  · simp [decideNextStep, decideAppend, saveMemory, hres]
  · have h := runTaskLoop_decide_error p o n st₂ (parseFailMsg e) hn (by rw [ho]; exact hres)
    rw [h, ho]
    simp [decideAppend, saveMemory]

/-- C4 witness: a concrete decode failure at a concrete reply. -/
theorem parse_failure_appends_and_ends_witness :
    decideNextStep (fun _ => Except.error "boom") (.reply "r") ⟨[], none⟩
      = (⟨[⟨"assistant", "r"⟩], some [⟨"assistant", "r"⟩]⟩, .error (parseFailMsg "boom"))
    ∧ runTaskLoop (fun _ => Except.error "boom")
        (fun _ => ⟨.reply "r", none, "", none, none, none⟩) 0 ⟨[], none⟩
      = ([.Thinking, .TaskError (parseFailMsg "boom")],
         ⟨[⟨"assistant", "r"⟩], some [⟨"assistant", "r"⟩]⟩) :=
  parse_failure_appends_and_ends (fun _ => Except.error "boom") "r" "boom" ⟨[], none⟩
    (fun _ => ⟨.reply "r", none, "", none, none, none⟩) 0 ⟨[], none⟩ rfl (by decide) rfl

/-- C3: a `Click` whose execution fails (element not found) is not
session-fatal: the iteration emits `Step` then `StepError` with the error
string, the next observation carries that error (`error` field set, and the
observation text appended to the conversation ends with the
`ERROR from last step` segment), and the loop recurses — when budget
remains, the next emitted event is the next round's `Thinking`. -/
theorem click_failure_recoverable (p : ParseFn) (o : Nat → IterOracle) (n : Nat)
    (st : BrainState) (sel msg : String) (hn : n < MAX_STEPS_PER_TASK)
    (hs : llmStepResult p (o n).llm = .ok (.Click sel))
    (he : (o n).execErr = some msg) :
    runTaskLoop p o n st
      = (.Thinking :: .Step (n + 1) (stepDescription (.Click sel)) :: .StepError msg ::
           (runTaskLoop p o (n + 1)
             (observeBrain (iterPageState (o n) (.Click sel)) (decideAppend (o n).llm st))).1,
         (runTaskLoop p o (n + 1)
             (observeBrain (iterPageState (o n) (.Click sel)) (decideAppend (o n).llm st))).2)
    ∧ (iterPageState (o n) (.Click sel)).error = some msg
    ∧ (observeBrain (iterPageState (o n) (.Click sel)) (decideAppend (o n).llm st)).conversation
        = (decideAppend (o n).llm st).conversation
            ++ [⟨"user", observationText (iterPageState (o n) (.Click sel))⟩]
    ∧ (∃ pre, (observationText (iterPageState (o n) (.Click sel))).data
          = pre ++ ("\n\nERROR from last step: " ++ msg).data)
    ∧ (n + 1 < MAX_STEPS_PER_TASK →
        ((runTaskLoop p o (n + 1)
            (observeBrain (iterPageState (o n) (.Click sel)) (decideAppend (o n).llm st))).1).head?
          = some .Thinking) := by
  have herr : (iterPageState (o n) (.Click sel)).error = some msg := by
    simp [iterPageState, iterExec, he]
  have hcont := runTaskLoop_cont p o n st (.Click sel) hn hs rfl
  rw [herr] at hcont
  refine ⟨hcont, herr, rfl, ?_, fun h2 => runTaskLoop_head_thinking p o (n + 1) _ h2⟩
  have hext : (iterPageState (o n) (.Click sel)).extracted = [] := by
    simp [iterPageState, iterExec, he]
  refine ⟨("Page URL: " ++ (iterPageState (o n) (.Click sel)).url ++ "\nTitle: "
      ++ (iterPageState (o n) (.Click sel)).title ++ "\n\nDOM:\n"
      ++ (iterPageState (o n) (.Click sel)).dom_snapshot).data, ?_⟩
  rw [observationText, hext, herr]
  simp [String.data_append]

/-- C3 witness: a concrete failing `Click` at step 0. -/
theorem click_failure_recoverable_witness :
    (iterPageState ((fun _ => (⟨.reply "c", some "no element", "", none, none, none⟩ : IterOracle)) 0)
        (.Click "#q")).error = some "no element"
    ∧ (0 + 1 < MAX_STEPS_PER_TASK →
        ((runTaskLoop (fun _ => Except.ok (Step.Click "#q"))
            (fun _ => ⟨.reply "c", some "no element", "", none, none, none⟩) (0 + 1)
            (observeBrain
              (iterPageState ((fun _ => (⟨.reply "c", some "no element", "", none, none,
                  none⟩ : IterOracle)) 0) (.Click "#q"))
              (decideAppend ((fun _ => (⟨.reply "c", some "no element", "", none, none,
                  none⟩ : IterOracle)) 0).llm ⟨[], none⟩))).1).head?
          = some .Thinking) := by
  have h := click_failure_recoverable (fun _ => Except.ok (Step.Click "#q"))
    (fun _ => ⟨.reply "c", some "no element", "", none, none, none⟩) 0 ⟨[], none⟩
    "#q" "no element" (by decide) rfl rfl
  exact ⟨h.2.1, h.2.2.2.2⟩

/-- The `StepError` events of one iteration contribute to none of the
session-level event counters. -/
theorem stepErrEvents_counts (e : Option String) :
    (stepErrEvents e).countP isTaskErrorEv = 0
    ∧ (stepErrEvents e).countP isStepEv = 0
    ∧ (stepErrEvents e).countP isThinkingEv = 0
    ∧ (stepErrEvents e).countP isTaskCompleteEv = 0 := by
  cases e <;> simp [stepErrEvents, isTaskErrorEv, isStepEv, isThinkingEv, isTaskCompleteEv,
    List.countP_cons]

/-- Event counts of a loop that exhausts its budget: when every decide
round up to the budget parses a non-terminal step, the remaining `fuel`
iterations emit exactly `fuel` `Step` events and `fuel` `Thinking` events,
then exactly one `TaskError` and no `TaskComplete`. -/
theorem runTaskGo_budget_counts (p : ParseFn) (o : Nat → IterOracle)
    (hall : ∀ k, k < MAX_STEPS_PER_TASK →
      ∃ s, llmStepResult p (o k).llm = .ok s ∧ s.isDone = false) :
    ∀ fuel n st, n + fuel = MAX_STEPS_PER_TASK →
      (runTaskGo p o fuel n st).1.countP isTaskErrorEv = 1
      ∧ (runTaskGo p o fuel n st).1.countP isStepEv = fuel
      ∧ (runTaskGo p o fuel n st).1.countP isThinkingEv = fuel
      ∧ (runTaskGo p o fuel n st).1.countP isTaskCompleteEv = 0 := by
  intro fuel
  induction fuel with
  | zero =>
      intro n st _
      simp [runTaskGo, List.countP_cons, isTaskErrorEv, isStepEv, isThinkingEv, isTaskCompleteEv]
  | succ f ih =>
      intro n st hfuel
      obtain ⟨s, hs, hnd⟩ := hall n (by omega)
      have hih := ih (n + 1) (observeBrain (iterPageState (o n) s) (decideAppend (o n).llm st))
        (by omega)
      have herr := stepErrEvents_counts (iterPageState (o n) s).error
      cases s <;> simp_all [runTaskGo, Step.isDone, List.countP_cons, List.countP_append,
        isTaskErrorEv, isStepEv, isThinkingEv, isTaskCompleteEv]

/-- C1: step-budget exhaustion.  When `step_count` has reached
`MAX_STEPS_PER_TASK` the next loop iteration emits exactly one `TaskError`
whose message names the limit and stops with the brain untouched — no
`Thinking`, no decide call, no execution.  Consequently a session whose
decide rounds keep producing non-terminal actions sees exactly 25 `Step`
events, exactly 25 `Thinking` events (decide calls), one `TaskError` and
no `TaskComplete`. -/
theorem step_budget_exhaustion (p : ParseFn) (o : Nat → IterOracle) (st : BrainState)
    (cmd : String) (st₀ : BrainState)
    (hall : ∀ k, k < MAX_STEPS_PER_TASK →
      ∃ s, llmStepResult p (o k).llm = .ok s ∧ s.isDone = false) :
    runTaskLoop p o MAX_STEPS_PER_TASK st = ([.TaskError stepLimitMessage], st)
    ∧ stepLimitMessage = "Reached maximum step limit (25)"
    ∧ (runTask p o cmd st₀).1.countP isTaskErrorEv = 1
    ∧ (runTask p o cmd st₀).1.countP isStepEv = MAX_STEPS_PER_TASK
    ∧ (runTask p o cmd st₀).1.countP isThinkingEv = MAX_STEPS_PER_TASK
    ∧ (runTask p o cmd st₀).1.countP isTaskCompleteEv = 0 := by
  have hcounts := runTaskGo_budget_counts p o hall MAX_STEPS_PER_TASK 0 (startTask cmd st₀) rfl
  refine ⟨runTaskLoop_exhausted p o _ st (le_refl _), by decide, ?_, ?_, ?_, ?_⟩ <;>
    simp [runTask, runTaskLoop, List.countP_append, hcounts.1, hcounts.2.1, hcounts.2.2.1,
      hcounts.2.2.2, List.countP_cons, isTaskErrorEv, isStepEv, isThinkingEv, isTaskCompleteEv]

/-- C1 witness: a session whose decide rounds always return `Screenshot`. -/
theorem step_budget_exhaustion_witness :
    runTaskLoop (fun _ => Except.ok Step.Screenshot)
        (fun _ => ⟨.reply "x", none, "", none, none, none⟩) MAX_STEPS_PER_TASK ⟨[], none⟩
      = ([.TaskError stepLimitMessage], ⟨[], none⟩)
    ∧ (runTask (fun _ => Except.ok Step.Screenshot)
        (fun _ => ⟨.reply "x", none, "", none, none, none⟩) "t" ⟨[], none⟩).1.countP isTaskErrorEv
      = 1 := by
  have h := step_budget_exhaustion (fun _ => Except.ok Step.Screenshot)
    (fun _ => ⟨.reply "x", none, "", none, none, none⟩) ⟨[], none⟩ "t" ⟨[], none⟩
    (fun k _ => ⟨Step.Screenshot, rfl, rfl⟩)
  exact ⟨h.1, h.2.2.1⟩

/-! ## Claims about snapshot truncation (C5, C10) -/

/-- Byte length distributes over append. -/
theorem utf8Len_append (a b : List Char) : utf8Len (a ++ b) = utf8Len a + utf8Len b := by
  simp [utf8Len]

/-- Byte length of a replicated character. -/
theorem utf8Len_replicate (n : Nat) (c : Char) :
    utf8Len (List.replicate n c) = n * c.utf8Size := by
  simp [utf8Len, List.map_replicate, List.sum_replicate, smul_eq_mul]

/-- Slicing zero bytes always succeeds with the empty prefix. -/
theorem byteSliceTo_zero (s : List Char) : byteSliceTo s 0 = some [] := by
  cases s <;> rfl

/-- Unfolding of the byte slice on a non-empty list and positive count. -/
theorem byteSliceTo_cons (c : Char) (cs : List Char) (n : Nat) :
    byteSliceTo (c :: cs) (n + 1)
      = if c.utf8Size ≤ n + 1 then (byteSliceTo cs (n + 1 - c.utf8Size)).map (c :: ·)
        else none := rfl

/-- A successful byte slice returns a prefix worth exactly the requested
number of bytes. -/
theorem byteSliceTo_sound :
    ∀ (s : List Char) (n : Nat) (t : List Char), byteSliceTo s n = some t →
      ∃ u, s = t ++ u ∧ utf8Len t = n := by
  intro s
  induction s with
  | nil =>
      intro n t h
      cases n with
      | zero =>
          rw [byteSliceTo_zero] at h
          cases h
          exact ⟨[], rfl, rfl⟩
      | succ m => cases h
  | cons c cs ih =>
      intro n t h
      cases n with
      | zero =>
          rw [byteSliceTo_zero] at h
          cases h
          exact ⟨c :: cs, rfl, rfl⟩
      | succ m =>
          rw [byteSliceTo_cons] at h
          by_cases hc : c.utf8Size ≤ m + 1
          · rw [if_pos hc] at h
            obtain ⟨t', ht', rfl⟩ := Option.map_eq_some'.mp h
            obtain ⟨u, hu, hlen⟩ := ih (m + 1 - c.utf8Size) t' ht'
            refine ⟨u, by rw [hu]; rfl, ?_⟩
            show c.utf8Size + utf8Len t' = m + 1
            omega
          · rw [if_neg hc] at h
            cases h

/-- A byte slice at an exact character boundary succeeds. -/
theorem byteSliceTo_complete :
    ∀ (t u : List Char), byteSliceTo (t ++ u) (utf8Len t) = some t := by
  intro t
  induction t with
  | nil => intro u; exact byteSliceTo_zero u
  | cons c t' ih =>
      intro u
      have hpos := Char.utf8Size_pos c
      have hlen : utf8Len (c :: t') = utf8Len t' + c.utf8Size := by
        show c.utf8Size + utf8Len t' = utf8Len t' + c.utf8Size
        omega
      rw [hlen]
      obtain ⟨m, hm⟩ : ∃ m, utf8Len t' + c.utf8Size = m + 1 := ⟨utf8Len t' + c.utf8Size - 1, by omega⟩
      rw [hm, List.cons_append, byteSliceTo_cons, if_pos (by omega)]
      have : m + 1 - c.utf8Size = utf8Len t' := by omega
      rw [this, ih u]
      rfl

/-- The byte slice succeeds exactly when the requested count is a UTF-8
character boundary of the text. -/
theorem byteSliceTo_isSome_iff (s : List Char) (n : Nat) :
    (byteSliceTo s n).isSome ↔ ∃ t u, s = t ++ u ∧ utf8Len t = n := by
  constructor
  · intro h
    obtain ⟨t, ht⟩ := Option.isSome_iff_exists.mp h
    obtain ⟨u, hu, hlen⟩ := byteSliceTo_sound s n t ht
    exact ⟨t, u, hu, hlen⟩
  · rintro ⟨t, u, rfl, rfl⟩
    rw [byteSliceTo_complete t u]
    rfl

/-- Byte slicing a run of one-byte characters keeps the corresponding run. -/
theorem byteSliceTo_replicate_append (c : Char) (hc : c.utf8Size = 1) :
    ∀ (k m : Nat) (rest : List Char),
      byteSliceTo (List.replicate k c ++ rest) (k + m)
        = (byteSliceTo rest m).map (List.replicate k c ++ ·) := by
  intro k
  induction k with
  | zero =>
      intro m rest
      simp only [List.replicate, List.nil_append, Nat.zero_add]
      cases h : byteSliceTo rest m <;> simp
  | succ k' ih =>
      intro m rest
      have hk : k' + 1 + m = (k' + m) + 1 := by omega
      rw [hk, List.replicate_succ, List.cons_append, byteSliceTo_cons, hc, if_pos (by omega)]
      have : k' + m + 1 - 1 = k' + m := by omega
      rw [this, ih m rest]
      cases h : byteSliceTo rest m <;> simp [List.replicate_succ]

/-- C5 (amended): the snapshot is returned unchanged when its byte length
is within `DOM_SNAPSHOT_MAX_CHARS`; when it is longer, every non-panicking
result is exactly a prefix of the raw text worth exactly
`DOM_SNAPSHOT_MAX_CHARS` bytes followed by the truncation marker carrying
the exact original length — so the *body* never exceeds the budget, while
the full output exceeds it by the marker length (see
`snapshot_budget_counterexample`). -/
theorem capture_truncation (raw : List Char) :
    (utf8Len raw ≤ DOM_SNAPSHOT_MAX_CHARS → captureTruncate raw = some raw)
    ∧ (DOM_SNAPSHOT_MAX_CHARS < utf8Len raw → ∀ out, captureTruncate raw = some out →
        ∃ pre, out = pre ++ truncMarker (utf8Len raw) ∧ utf8Len pre = DOM_SNAPSHOT_MAX_CHARS
          ∧ pre <+: raw) := by
  constructor
  · intro h
    simp [captureTruncate, Nat.not_lt.mpr h]
  · intro h out hout
    rw [captureTruncate, if_pos h] at hout
    obtain ⟨cut, hcut, rfl⟩ := Option.map_eq_some'.mp hout
    obtain ⟨u, hu, hlen⟩ := byteSliceTo_sound raw _ cut hcut
    exact ⟨cut, rfl, hlen, ⟨u, hu.symm⟩⟩

/-- C5 witness: a short snapshot passes through unchanged. -/
theorem capture_truncation_witness :
    captureTruncate "hi".data = some "hi".data :=
  (capture_truncation "hi".data).1 (by decide)

/-- C5 counterexample: on a 4001-byte snapshot the returned output is the
4000-byte prefix *plus* the truncation marker, and its total length
exceeds the configured budget — the claim `output length never exceeds the
budget` is false on the code. -/
theorem snapshot_budget_counterexample :
    captureTruncate (List.replicate 4001 'a')
      = some (List.replicate 4000 'a' ++ truncMarker 4001)
    ∧ DOM_SNAPSHOT_MAX_CHARS < utf8Len (List.replicate 4000 'a' ++ truncMarker 4001) := by
  have ha : ('a' : Char).utf8Size = 1 := rfl
  have h1 : utf8Len (List.replicate 4001 'a') = 4001 := by
    rw [utf8Len_replicate, ha, Nat.mul_one]
  have h40 : utf8Len (List.replicate 4000 'a') = 4000 := by
    rw [utf8Len_replicate, ha, Nat.mul_one]
  have hsplit : List.replicate 4001 'a' = List.replicate 4000 'a' ++ List.replicate 1 'a' := by
    rw [← List.replicate_add]
  have hslice := byteSliceTo_complete (List.replicate 4000 'a') (List.replicate 1 'a')
  rw [h40, ← hsplit] at hslice
  have hdm : DOM_SNAPSHOT_MAX_CHARS = 4000 := rfl
  constructor
  · rw [captureTruncate, hdm, h1, if_pos (by omega), hslice]
    rfl
  · rw [utf8Len_append, h40, hdm]
    have hpos : 0 < utf8Len (truncMarker 4001) := by
      have : truncMarker 4001 = '\n' :: ("... [truncated, " ++ Nat.repr 4001 ++ " total chars]").data := rfl
      rw [this]
      have := Char.utf8Size_pos '\n'
      simp [utf8Len]
      omega
    omega

/-- C10: the truncation branch byte-slices at index 4000, which is total
exactly when 4000 bytes is a UTF-8 character boundary of the raw text; a
snapshot of 3999 one-byte characters followed by two two-byte characters
(4003 bytes, with byte 4000 inside a character) makes the slice panic. -/
theorem byte_slice_panic (raw : List Char) (hlong : DOM_SNAPSHOT_MAX_CHARS < utf8Len raw) :
    ((captureTruncate raw).isSome ↔ ∃ t u, raw = t ++ u ∧ utf8Len t = DOM_SNAPSHOT_MAX_CHARS)
    ∧ captureTruncate (List.replicate 3999 'a' ++ [Char.ofNat 233, Char.ofNat 233]) = none
    ∧ DOM_SNAPSHOT_MAX_CHARS
        < utf8Len (List.replicate 3999 'a' ++ [Char.ofNat 233, Char.ofNat 233]) := by
  have ha : ('a' : Char).utf8Size = 1 := rfl
  have hlen : utf8Len (List.replicate 3999 'a' ++ [Char.ofNat 233, Char.ofNat 233]) = 4003 := by
    rw [utf8Len_append, utf8Len_replicate, ha, Nat.mul_one]
    decide
  refine ⟨?_, ?_, by rw [hlen]; decide⟩
  · rw [captureTruncate, if_pos hlong, Option.isSome_map']
    exact byteSliceTo_isSome_iff raw DOM_SNAPSHOT_MAX_CHARS
  · have hmid : byteSliceTo (List.replicate 3999 'a' ++ [Char.ofNat 233, Char.ofNat 233]) 4000
        = none := by
      have h4 : (4000 : Nat) = 3999 + 1 := by omega
      rw [h4, byteSliceTo_replicate_append 'a' ha 3999 1 [Char.ofNat 233, Char.ofNat 233]]
      rfl
    rw [captureTruncate, if_pos (by rw [hlen]; decide)]
    rw [show DOM_SNAPSHOT_MAX_CHARS = 4000 from rfl, hmid]
    rfl

/-- C10 witness: on an all-one-byte snapshot of 4001 bytes the boundary
characterization holds (and the slice indeed succeeds). -/
theorem byte_slice_panic_witness :
    (captureTruncate (List.replicate 4001 'a')).isSome
      ↔ ∃ t u, List.replicate 4001 'a' = t ++ u ∧ utf8Len t = DOM_SNAPSHOT_MAX_CHARS :=
  (byte_slice_panic (List.replicate 4001 'a')
    (by rw [utf8Len_replicate]; decide)).1

/-! ## Claims about reply fence stripping (C8) -/

/-- When the pattern does not occur at the front, repeated removal is the
identity, whatever the fuel. -/
theorem stripGo_of_not (pat s : List Char) (h : pat.isPrefixOf s = false) :
    ∀ fuel, stripGo pat fuel s = s := by
  intro fuel
  cases fuel with
  | zero => rfl
  | succ f => simp [stripGo, h]

/-- `trim_start_matches` is the identity when the pattern is not a prefix. -/
theorem stripStartAll_of_not (pat s : List Char) (h : pat.isPrefixOf s = false) :
    stripStartAll pat s = s :=
  stripGo_of_not pat s h s.length

/-- `trim_start_matches` removes one leading occurrence when no second one
follows. -/
theorem stripStartAll_cancel (pat rest : List Char) (hne : pat ≠ [])
    (hnp : pat.isPrefixOf rest = false) :
    stripStartAll pat (pat ++ rest) = rest := by
  obtain ⟨c, pat', rfl⟩ : ∃ c pat', pat = c :: pat' := by
    cases pat with
    | nil => exact absurd rfl hne
    | cons c pat' => exact ⟨c, pat', rfl⟩
  unfold stripStartAll
  have hlen : ((c :: pat') ++ rest).length = (pat'.length + rest.length) + 1 := by
    rw [List.length_append, List.length_cons]
    omega
  rw [hlen]
  have hpre : (c :: pat').isPrefixOf ((c :: pat') ++ rest) = true :=
    List.isPrefixOf_iff_prefix.mpr ( List.prefix_append _ _)
  simp only [stripGo, List.isEmpty_cons, Bool.not_false, hpre, Bool.and_true, Bool.true_and,
    if_pos]
  rw [List.drop_left]
  exact stripGo_of_not _ _ hnp _

/-- A head mismatch refutes `isPrefixOf`. -/
theorem isPrefixOf_false_of_head (a b : Char) (l₁ l₂ : List Char) (h : a ≠ b) :
    (a :: l₁).isPrefixOf (b :: l₂) = false := by
  show (a == b && l₁.isPrefixOf l₂) = false
  simp [h]

/-- `isPrefixOf` cancels a common prefix. -/
theorem isPrefixOf_append_same (x p s : List Char) :
    (x ++ p).isPrefixOf (x ++ s) = p.isPrefixOf s := by
  induction x with
  | nil => rfl
  | cons a x' ih =>
      show (a == a && (x' ++ p).isPrefixOf (x' ++ s)) = p.isPrefixOf s
      simp [ih]

/-- Dropping over a block of characters that all satisfy the predicate. -/
theorem dropWhile_append_all (l₁ l₂ : List Char) (p : Char → Bool)
    (h : ∀ c ∈ l₁, p c = true) :
    (l₁ ++ l₂).dropWhile p = l₂.dropWhile p := by
  induction l₁ with
  | nil => rfl
  | cons a l' ih =>
      rw [List.cons_append, List.dropWhile_cons, if_pos (h a (by simp))]
      exact ih fun c hc => h c (by simp [hc])

/-- `trim` is the identity on a list with non-whitespace first and last
characters. -/
theorem trimList_id (mid : List Char)
    (hh : ∃ a r, mid = a :: r ∧ isWs a = false)
    (hl : ∃ b r, mid.reverse = b :: r ∧ isWs b = false) :
    trimList mid = mid := by
  obtain ⟨a, r, rfl, ha⟩ := hh
  obtain ⟨b, rr, hrev, hb⟩ := hl
  unfold trimList
  rw [List.dropWhile_cons, if_neg (by simp [ha]), hrev, List.dropWhile_cons,
    if_neg (by simp [hb]), ← hrev, List.reverse_reverse]

/-- `trim` removes exactly a whitespace sandwich around a list with
non-whitespace first and last characters. -/
theorem trimList_sandwich (ws₁ ws₂ mid : List Char)
    (h₁ : ∀ c ∈ ws₁, isWs c = true) (h₂ : ∀ c ∈ ws₂, isWs c = true)
    (hh : ∃ a r, mid = a :: r ∧ isWs a = false)
    (hl : ∃ b r, mid.reverse = b :: r ∧ isWs b = false) :
    trimList (ws₁ ++ mid ++ ws₂) = mid := by
  obtain ⟨a, r, hmid, ha⟩ := hh
  obtain ⟨b, rr, hrev, hb⟩ := hl
  unfold trimList
  rw [List.append_assoc, dropWhile_append_all ws₁ _ _ h₁, hmid, List.cons_append,
    List.dropWhile_cons, if_neg (by simp [ha]), ← List.cons_append, ← hmid,
    List.reverse_append, dropWhile_append_all _ _ _ (fun c hc => h₂ c (by
      simpa using hc)), hrev, List.dropWhile_cons, if_neg (by simp [hb]), ← hrev,
    List.reverse_reverse]

/-- C8: a reply consisting of a JSON object (a brace-delimited string)
wrapped in optional whitespace, an optional leading code fence (with or
without the `json` tag) and an optional trailing fence is cleaned to
exactly the bare object, so the decode — and hence the parsed `Step` —
is the same as for the unwrapped object. -/
theorem fence_stripping (p : ParseFn) (ws₁ ws₂ J f t : List Char)
    (hws₁ : ∀ c ∈ ws₁, isWs c = true) (hws₂ : ∀ c ∈ ws₂, isWs c = true)
    (hf : f = tickJson ∨ f = tick3 ∨ f = [])
    (ht : t = tick3 ∨ t = [])
    (hJh : ∃ r, J = jsonOpen :: r)
    (hJl : J.getLast? = some jsonClose) :
    cleanedReply (ws₁ ++ (f ++ (J ++ t)) ++ ws₂) = J
    ∧ cleanedReply J = J
    ∧ llmStepResult p (.reply ((ws₁ ++ (f ++ (J ++ t)) ++ ws₂).asString))
        = llmStepResult p (.reply (J.asString)) := by
  obtain ⟨J', rfl⟩ := hJh
  have hwsTick : isWs tick = false := by decide
  have hwsOpen : isWs jsonOpen = false := by decide
  have hwsClose : isWs jsonClose = false := by decide
  have hne3 : tick3 ≠ [] := by decide
  have hneJ : tickJson ≠ [] := by decide
  obtain ⟨Jr, hJrev⟩ : ∃ rr, (jsonOpen :: J').reverse = jsonClose :: rr := by
    have hh := List.head?_reverse (jsonOpen :: J')
    rw [hJl] at hh
    rcases hc : (jsonOpen :: J').reverse with _ | ⟨b, rr⟩
    · rw [hc] at hh; cases hh
    · rw [hc] at hh
      simp only [List.head?_cons, Option.some.injEq] at hh
      exact ⟨rr, by rw [hh]⟩
  have hnpJ_J : tickJson.isPrefixOf ((jsonOpen :: J') ++ t) = false := by
    rw [List.cons_append]
    exact isPrefixOf_false_of_head _ _ _ _ (by decide)
  have hnp3_J : tick3.isPrefixOf ((jsonOpen :: J') ++ t) = false := by
    rw [List.cons_append]
    exact isPrefixOf_false_of_head _ _ _ _ (by decide)
  have hnpJson_after3 : tickJson.isPrefixOf (tick3 ++ ((jsonOpen :: J') ++ t)) = false := by
    have hsplit : tickJson = tick3 ++ ['j', 's', 'o', 'n'] := rfl
    rw [hsplit, isPrefixOf_append_same, List.cons_append]
    exact isPrefixOf_false_of_head _ _ _ _ (by decide)
  have hnp3_rev : tick3.isPrefixOf ((jsonOpen :: J').reverse) = false := by
    rw [hJrev]
    exact isPrefixOf_false_of_head _ _ _ _ (by decide)
  have hnpJ_bare : tickJson.isPrefixOf (jsonOpen :: J') = false :=
    isPrefixOf_false_of_head _ _ _ _ (by decide)
  have hnp3_bare : tick3.isPrefixOf (jsonOpen :: J') = false :=
    isPrefixOf_false_of_head _ _ _ _ (by decide)
  have h3rev : tick3.reverse = tick3 := rfl
  have hmidh : ∃ a r, (f ++ ((jsonOpen :: J') ++ t)) = a :: r ∧ isWs a = false := by
    rcases hf with rfl | rfl | rfl
    · exact ⟨tick, _, rfl, hwsTick⟩
    · exact ⟨tick, _, rfl, hwsTick⟩
    · exact ⟨jsonOpen, _, rfl, hwsOpen⟩
  have hmidl : ∃ b r, (f ++ ((jsonOpen :: J') ++ t)).reverse = b :: r ∧ isWs b = false := by
    rcases ht with rfl | rfl
    · rw [List.reverse_append, List.reverse_append]
      exact ⟨tick, _, rfl, hwsTick⟩
    · rw [List.append_nil, List.reverse_append, hJrev]
      exact ⟨jsonClose, _, rfl, hwsClose⟩
  have hA : trimList (ws₁ ++ (f ++ ((jsonOpen :: J') ++ t)) ++ ws₂)
      = f ++ ((jsonOpen :: J') ++ t) :=
    trimList_sandwich ws₁ ws₂ _ hws₁ hws₂ hmidh hmidl
  have hBC : stripStartAll tick3 (stripStartAll tickJson (f ++ ((jsonOpen :: J') ++ t)))
      = (jsonOpen :: J') ++ t := by
    rcases hf with rfl | rfl | rfl
    · rw [stripStartAll_cancel tickJson _ hneJ hnpJ_J]
      exact stripStartAll_of_not _ _ hnp3_J
    · rw [stripStartAll_of_not _ _ hnpJson_after3]
      exact stripStartAll_cancel tick3 _ hne3 hnp3_J
    · rw [List.nil_append, stripStartAll_of_not _ _ hnpJ_J]
      exact stripStartAll_of_not _ _ hnp3_J
  have hD : stripEndAll tick3 ((jsonOpen :: J') ++ t) = jsonOpen :: J' := by
    unfold stripEndAll
    rcases ht with rfl | rfl
    · rw [List.reverse_append, h3rev, stripStartAll_cancel tick3 _ hne3 hnp3_rev,
        List.reverse_reverse]
    · rw [List.append_nil, h3rev, stripStartAll_of_not _ _ hnp3_rev, List.reverse_reverse]
  have hE : trimList (jsonOpen :: J') = jsonOpen :: J' :=
    trimList_id _ ⟨jsonOpen, J', rfl, hwsOpen⟩ ⟨jsonClose, Jr, hJrev, hwsClose⟩
  have hclean : cleanedReply (ws₁ ++ (f ++ ((jsonOpen :: J') ++ t)) ++ ws₂) = jsonOpen :: J' := by
    unfold cleanedReply
    rw [hA, hBC, hD, hE]
  have hcleanJ : cleanedReply (jsonOpen :: J') = jsonOpen :: J' := by
    unfold cleanedReply
    rw [hE, stripStartAll_of_not _ _ hnpJ_bare, stripStartAll_of_not _ _ hnp3_bare]
    unfold stripEndAll
    rw [h3rev, stripStartAll_of_not _ _ hnp3_rev, List.reverse_reverse, hE]
  have hstr : cleanedReplyStr ((ws₁ ++ (f ++ ((jsonOpen :: J') ++ t)) ++ ws₂).asString)
      = cleanedReplyStr ((jsonOpen :: J').asString) := by
    unfold cleanedReplyStr
    have hdata : ∀ l : List Char, (l.asString).data = l := fun _ => rfl
    rw [hdata, hdata, hclean, hcleanJ]
  refine ⟨hclean, hcleanJ, ?_⟩
  simp only [llmStepResult]
  rw [hstr]

/-- C8 witness: a concrete fenced object with leading whitespace. -/
theorem fence_stripping_witness :
    cleanedReply ([' '] ++ (tick3 ++ ([jsonOpen, jsonClose] ++ tick3)) ++ [])
      = [jsonOpen, jsonClose]
    ∧ llmStepResult (fun _ => Except.error "e")
        (.reply (([' '] ++ (tick3 ++ ([jsonOpen, jsonClose] ++ tick3)) ++ []).asString))
      = llmStepResult (fun _ => Except.error "e") (.reply ([jsonOpen, jsonClose].asString)) := by
  have h := fence_stripping (fun _ => Except.error "e") [' '] [] [jsonOpen, jsonClose] tick3 tick3
    (by decide) (by simp) (Or.inr (Or.inl rfl)) (Or.inl rfl) ⟨[jsonClose], rfl⟩ rfl
  exact ⟨h.1, h.2.2⟩

/-! ## Claims about snapshot identifier assignment (C9) -/

/-- `snapExtends` is reflexive (an idle walk segment). -/
theorem snapExtends_refl (st : SnapState) : snapExtends st st :=
  ⟨0, [], by simp, by simp [List.range'], by simp, by simp [List.range']⟩

/-- `snapExtends` composes along consecutive walk segments. -/
theorem snapExtends_trans (st st₁ st₂ : SnapState)
    (h₁ : snapExtends st st₁) (h₂ : snapExtends st₁ st₂) : snapExtends st st₂ := by
  obtain ⟨k₁, es₁, hn₁, hs₁, he₁, hsub₁⟩ := h₁
  obtain ⟨k₂, es₂, hn₂, hs₂, he₂, hsub₂⟩ := h₂
  have hrange : List.range' st.nextId k₁ ++ List.range' (st.nextId + k₁) k₂
      = List.range' st.nextId (k₁ + k₂) := by
    have h := List.range'_append st.nextId k₁ k₂ 1
    simpa [Nat.add_comm] using h
  refine ⟨k₁ + k₂, es₁ ++ es₂, by omega, ?_, by rw [he₂, he₁, List.append_assoc], ?_⟩
  · rw [hs₂, hs₁, List.append_assoc, hn₁, hrange]
  · rw [← hrange]
    exact List.Sublist.append hsub₁ (by rw [hn₁] at hsub₂; exact hsub₂)

/-- One loop-body invocation advances the counter by zero or one, stamps
exactly the consumed id, and pushes its id as an interactive line at most
once. -/
theorem processChild_extends (c : DomNode) (st : SnapState) :
    snapExtends st (processChild c st) := by
  unfold processChild
  dsimp only
  split_ifs <;>
    first
      | exact ⟨1, [st.nextId], rfl, by simp [List.range'_one], rfl, by simp [List.range'_one]⟩
      | exact ⟨1, [], rfl, by simp [List.range'_one], by simp, by simp⟩
      | exact ⟨0, [], by simp, by simp [List.range'], by simp, by simp [List.range']⟩

mutual

/-- The walk of one subtree satisfies the id-assignment spec. -/
theorem walkNode_extends (depth : Nat) (c : DomNode) (st : SnapState) :
    snapExtends st (walkNode depth c st) := by
  simp only [walkNode]
  by_cases h : depth > 15
  · rw [if_pos h]
    exact snapExtends_refl st
  · rw [if_neg h]
    exact walkList_extends depth c.children st
termination_by sizeOf c
decreasing_by cases c; simp [DomNode.children]

/-- The walk of a child list satisfies the id-assignment spec. -/
theorem walkList_extends (depth : Nat) (cs : List DomNode) (st : SnapState) :
    snapExtends st (walkList depth cs st) := by
  match cs with
  | [] =>
      simp only [walkList]
      exact snapExtends_refl st
  | c :: rest =>
      simp only [walkList]
      by_cases h : skipTags.contains c.tag = true ∨ c.visible = false
      · rw [if_pos h]
        exact walkList_extends depth rest st
      · rw [if_neg h]
        exact snapExtends_trans _ _ _
          (snapExtends_trans _ _ _ (processChild_extends c st)
            (walkNode_extends (depth + 1) c (processChild c st)))
          (walkList_extends depth rest _)
termination_by sizeOf cs
decreasing_by all_goals (simp; try omega)

end

/-- C9: identifier discipline of one snapshot call.  Starting from the
fresh per-call state (`id = 0` — the counter restarts with every call),
the stamped `data-eid` identifiers are exactly `0, 1, …, id_final - 1` in
traversal order — assignment is consecutive and strictly increasing from
zero — and the identifiers carried by the emitted interactive lines form a
subsequence of them, hence are unique within the snapshot and strictly
increasing in emission order. -/
theorem snapshot_identifier_discipline (body : DomNode) :
    (snapshotRun body).stamped = List.range ((snapshotRun body).nextId)
    ∧ ((snapshotRun body).eids).Sublist ((snapshotRun body).stamped)
    ∧ ((snapshotRun body).eids).Pairwise (· < ·)
    ∧ ((snapshotRun body).eids).Nodup := by
  obtain ⟨k, es, hn, hs, he, hsub⟩ := walkNode_extends 0 body ⟨0, [], [], [], []⟩
  have hrun : snapshotRun body = walkNode 0 body ⟨0, [], [], [], []⟩ := rfl
  dsimp only at hn hs he hsub
  rw [Nat.zero_add] at hn
  rw [List.nil_append] at hs he
  have hrange : List.range' 0 k = List.range k := (List.range_eq_range' k).symm
  rw [hrange] at hs hsub
  refine ⟨?_, ?_, ?_, ?_⟩
  · rw [hrun, hs, hn]
  · rw [hrun, hs, he]
    exact hsub
  · rw [hrun, he]
    exact List.Pairwise.sublist hsub (List.pairwise_lt_range k)
  · rw [hrun, he]
    exact List.Nodup.sublist hsub (List.nodup_range k)
